import Mathlib

/-!
Shallow embedding of the `optstrat_bt` backtesting core
(`src/opstrat_backtester/core/portfolio.py`, `engine.py`, `events.py`).

Modelling conventions:
* Python floats are modelled by `ℚ` (exact arithmetic).
* `pd.Timestamp` dates are modelled by `ℤ` day numbers; `(a - b).days` is
  integer subtraction.
* Python dicts of heterogeneous metadata are association lists
  `List (String × MetaVal)` with dict lookup/update semantics.
* A pandas price table (`market_data.set_index('ticker')['close']`) is an
  association list `List (String × Option ℚ)`; `none` models a NaN close.
* Python exceptions that the source does not catch are modelled with
  `Except String`.
-/

/-- A metadata value stored in a Python metadata dict: a string, a number,
a date, or Python `None`. -/
inductive MetaVal
  | str (s : String)
  | num (q : ℚ)
  | date (d : ℤ)
  | null
deriving DecidableEq, Repr

/-- A Python dict of metadata, as an association list. -/
abbrev Metadata := List (String × MetaVal)

/-- Dict / indexed-Series lookup: first entry with the given key. -/
def lookupA {κ α : Type} [BEq κ] (l : List (κ × α)) (k : κ) : Option α :=
  (l.find? (fun kv => kv.1 == k)).map (·.2)

/-- `d[k] = v` for a Python dict: overwrite the (unique) existing entry in
place, otherwise append the new key at the end (dict insertion order). -/
def dictSet {κ α : Type} [BEq κ] : List (κ × α) → κ → α → List (κ × α)
  | [], k, x => [(k, x)]
  | kv :: l, k, x => if kv.1 == k then (k, x) :: l else kv :: dictSet l k x

/-- `del d[k]` for a Python dict. -/
def dictRemove {κ α : Type} [BEq κ] : List (κ × α) → κ → List (κ × α)
  | [], _ => []
  | kv :: l, k => if kv.1 == k then dictRemove l k else kv :: dictRemove l k

/-- `d.update(m)` for Python dicts. -/
def dupdate (d m : Metadata) : Metadata :=
  m.foldl (fun acc kv => dictSet acc kv.1 kv.2) d

/-- Python's `str.upper()`: upper-case every character. -/
def pyUpper (s : String) : String := ⟨s.data.map Char.toUpper⟩

/-- Read a metadata value as a number, when it is stored as one. -/
def asNum : Option MetaVal → Option ℚ
  | some (.num q) => some q
  | _ => none

/-- Read a metadata value as a string, when it is stored as one. -/
def asStr : Option MetaVal → Option String
  | some (.str s) => some s
  | _ => none

/-- `metadata.get(k, default)` for a numeric field. -/
def getNumD (m : Metadata) (k : String) (dflt : ℚ) : ℚ :=
  match asNum (lookupA m k) with
  | some q => q
  | none => dflt

/-- `metadata.get(k, default)` for a string field. -/
def getStrD (m : Metadata) (k : String) (dflt : String) : String :=
  match asStr (lookupA m k) with
  | some s => s
  | none => dflt

/-- The `mtm_price_source` tag written by `Portfolio.mark_to_market`
(portfolio.py lines 214, 228, 243, 256, 269). -/
inductive PriceSource
  | MARKET_CLOSE
  | STALE_FWD (days : ℤ)
  | INTRINSIC_STALE (days : ℤ)
  | ZERO_STALE_NO_METADATA
  | ZERO_NO_DATA
deriving DecidableEq, Repr

/-- One entry of `Portfolio.positions` (the dict built at
portfolio.py lines 131-139). -/
structure Position where
  quantity : ℤ
  cost_basis : ℚ
  market_value : ℚ
  last_price : ℚ
  last_price_date : ℤ
  metadata : Metadata
  mtm_price_source : Option PriceSource
deriving DecidableEq, Repr

/-- One entry of `Portfolio.trades` (the `trade_record` dict at
portfolio.py lines 120-127): `cost = quantity * price` is the raw cost and
the full metadata dict is retained on the record. -/
structure TradeRecord where
  date : ℤ
  ticker : String
  quantity : ℤ
  price : ℚ
  cost : ℚ
  metadata : Metadata
deriving DecidableEq, Repr

/-- One entry of `Portfolio.history` (portfolio.py lines 283-289). -/
structure Snapshot where
  date : ℤ
  portfolio_value : ℚ
  cash : ℚ
  positions_value : ℚ
  missing_mtm_tickers : List String
deriving DecidableEq, Repr

/-- The `Portfolio` state (portfolio.py `__init__`). The positions dict is
an association list in insertion order. -/
structure Portfolio where
  cash : ℚ
  positions : List (String × Position)
  history : List Snapshot
  trades : List TradeRecord
  stale_price_days : ℤ
deriving DecidableEq, Repr

/-- `Portfolio(initial_cash, stale_price_days)`. -/
def Portfolio.init (initial_cash : ℚ) (spd : ℤ) : Portfolio :=
  { cash := initial_cash, positions := [], history := [], trades := [],
    stale_price_days := spd }

/-- The position entry currently held for a ticker. -/
def posEntry (p : Portfolio) (t : String) : Option Position :=
  lookupA p.positions t

/-- `allowed_metadata` (portfolio.py line 160). -/
def allowed_metadata : List String :=
  ["type", "due_date", "strike", "option_type", "delta", "hedged_stock_ticker"]

/-- `Portfolio.add_trade(trade_date, ticker, quantity, price, metadata)`
(portfolio.py lines 114-170). Cash decreases by `quantity * price`; the
trade record is appended with the full metadata; the position is created
with the full metadata dict (line 138) or has the full dict merged in
(line 141); cost basis is recomputed only for `quantity > 0`
(lines 148-155); the allowed-keys merge (lines 160-164) runs after the
full merges; the position is deleted when its quantity reaches zero
(lines 167-168). -/
def Portfolio.add_trade (p : Portfolio) (trade_date : ℤ) (ticker : String)
    (quantity : ℤ) (price : ℚ) (metadata : Metadata) : Portfolio :=
  let trade_cost : ℚ := (quantity : ℚ) * price
  let cash' := p.cash - trade_cost
  let trade_record : TradeRecord :=
    { date := trade_date, ticker := ticker, quantity := quantity,
      price := price, cost := trade_cost, metadata := metadata }
  let pos0 : Position :=
    match posEntry p ticker with
    | none =>
        { quantity := 0, cost_basis := 0, market_value := 0,
          last_price := price, last_price_date := trade_date,
          metadata := metadata, mtm_price_source := none }
    | some pos => { pos with metadata := dupdate pos.metadata metadata }
  let old_quantity := pos0.quantity
  let new_quantity := old_quantity + quantity
  let pos1 : Position :=
    if quantity > 0 then
      { pos0 with
        cost_basis :=
          if new_quantity > 0 then
            (pos0.cost_basis * (old_quantity : ℚ) + trade_cost) / (new_quantity : ℚ)
          else 0,
        last_price := price,
        last_price_date := trade_date }
    else pos0
  let pos2 : Position := { pos1 with quantity := new_quantity }
  let pos3 : Position :=
    { pos2 with
      metadata := dupdate pos2.metadata
        (metadata.filter (fun kv => allowed_metadata.contains kv.1)) }
  let positions1 := dictSet p.positions ticker pos3
  let positions2 :=
    if new_quantity = 0 then dictRemove positions1 ticker
    else positions1
  { p with cash := cash', trades := p.trades ++ [trade_record],
           positions := positions2 }

/-- The per-position body of `Portfolio.mark_to_market`
(portfolio.py lines 201-280). Returns the updated position together with
the flag telling whether the ticker was appended to
`positions_missing_data` (line 236: only the intrinsic-fallback branch
appends). A `none` close in the market table models a NaN (treated as
missing, line 219). -/
def mtmPosition (spd : ℤ) (date : ℤ) (market : List (String × Option ℚ))
    (spot : Option ℚ) (ticker : String) (pos : Position) : Position × Bool :=
  let is_option := lookupA pos.metadata "type" = some (.str "option")
  match (lookupA market ticker).join with
  | some price =>
      ({ pos with last_price := price, last_price_date := date,
                  market_value := (pos.quantity : ℚ) * price,
                  mtm_price_source := some .MARKET_CLOSE }, false)
  | none =>
      let days_stale := date - pos.last_price_date
      if days_stale ≤ spd then
        ({ pos with market_value := (pos.quantity : ℚ) * pos.last_price,
                    mtm_price_source := some (.STALE_FWD days_stale) }, false)
      else if is_option then
        match spot with
        | some sp =>
            -- positions_missing_data.append(ticker) happens here (line 236)
            (match asNum (lookupA pos.metadata "strike"),
                   asStr (lookupA pos.metadata "option_type") with
             | some strike, some option_type =>
                 let intrinsic :=
                   if pyUpper option_type = "PUT" then max 0 (strike - sp)
                   else max 0 (sp - strike)
                 -- lines 263-264 update last_price/last_price_date
                 { pos with last_price := intrinsic, last_price_date := date,
                            market_value := (pos.quantity : ℚ) * intrinsic,
                            mtm_price_source := some (.INTRINSIC_STALE days_stale) }
             | _, _ =>
                 -- failsafe: missing strike or option_type, mark to zero;
                 -- lines 263-264 still reset last_price/last_price_date
                 { pos with last_price := 0, last_price_date := date,
                            market_value := (pos.quantity : ℚ) * 0,
                            mtm_price_source := some .ZERO_STALE_NO_METADATA },
             true)
        | none =>
            ({ pos with market_value := (pos.quantity : ℚ) * 0,
                        mtm_price_source := some .ZERO_NO_DATA }, false)
      else
        ({ pos with market_value := (pos.quantity : ℚ) * 0,
                    mtm_price_source := some .ZERO_NO_DATA }, false)

/-- `Portfolio.mark_to_market(date, market_data, current_spot_price)`
(portfolio.py lines 172-289): revalues every position through
`mtmPosition` and appends one history snapshot with
`positions_value = total_value - cash`. -/
def Portfolio.mark_to_market (p : Portfolio) (date : ℤ)
    (market : List (String × Option ℚ)) (spot : Option ℚ) : Portfolio :=
  let results := p.positions.map
    (fun kv => (kv.1, mtmPosition p.stale_price_days date market spot kv.1 kv.2))
  let positions' := results.map (fun r => (r.1, r.2.1))
  let total_value := p.cash + (results.map (fun r => r.2.1.market_value)).sum
  let missing := results.filterMap (fun r => if r.2.2 then some r.1 else none)
  { p with positions := positions',
           history := p.history ++
             [{ date := date, portfolio_value := total_value, cash := p.cash,
                positions_value := total_value - p.cash,
                missing_mtm_tickers := missing }] }

/-- A trading signal returned by a strategy (engine.py: `signal['ticker']`,
`signal['quantity']`). -/
structure Signal where
  ticker : String
  quantity : ℤ
deriving DecidableEq, Repr

/-- One row of a daily option-chain DataFrame, with the columns the engine
reads: `symbol`, `type`, `due_date`, `strike`, `close`, `high`, `low`.
Optional columns may hold `none` (a Python `None`/NaN). -/
structure OptionRow where
  symbol : String
  typ : Option String
  due_date : Option ℤ
  strike : Option ℚ
  close : Option ℚ
  high : ℚ
  low : ℚ
deriving DecidableEq, Repr

/-- Lift an optional string column value into a metadata value
(`decision_row.get(...)` may yield `None`). -/
def ostr : Option String → MetaVal
  | some s => .str s
  | none => .null

/-- Lift an optional date column value into a metadata value. -/
def odate : Option ℤ → MetaVal
  | some d => .date d
  | none => .null

/-- Lift an optional numeric column value into a metadata value. -/
def onum : Option ℚ → MetaVal
  | some q => .num q
  | none => .null

/-- The body of the `for signal in signals` loop of
`Backtester._execute_trades` (engine.py lines 234-264), acting on the
portfolio paired with the list of log messages the loop emits (the source
contains no logging call in this loop, so no branch appends a message).
A missing row in `current` is skipped silently (lines 238-239); a missing
row in `decision` makes `.iloc[0]` raise an uncaught `IndexError`
(line 251), modelled as `Except.error`. When both rows exist, the fill
price and costs are computed (lines 241-247) and the trade metadata is
built (lines 252-263), but the call at line 264 —
`add_trade(date, ticker, qty, price, metadata=trade_metadata,
commission=commission_cost, fees=fee_cost)` — passes `commission`/`fees`
keyword arguments that the `add_trade` signature in portfolio.py
(lines 49-56) does not accept, so it raises an uncaught `TypeError`
before any trade is recorded. -/
def execSignal (cpc fpct : ℚ) (_date : ℤ) (current decision : List OptionRow)
    (st : Portfolio × List String) (sig : Signal) :
    Except String (Portfolio × List String) :=
  match current.find? (fun r => r.symbol == sig.ticker) with
  | none => .ok st
  | some row =>
    let price := if sig.quantity > 0 then row.high else row.low
    let trade_value := |(sig.quantity : ℚ)| * price
    let commission_cost := |(sig.quantity : ℚ)| * cpc
    let fee_cost := trade_value * fpct
    match decision.find? (fun r => r.symbol == sig.ticker) with
    | none => .error "IndexError: single positional indexer is out-of-bounds"
    | some drow =>
      let action := if sig.quantity > 0 then "BUY" else "SELL"
      let _trade_metadata : Metadata :=
        [("type", .str "option"), ("option_type", ostr drow.typ),
         ("due_date", odate drow.due_date), ("strike", onum drow.strike),
         ("action", .str action), ("commission", .num commission_cost),
         ("fees", .num fee_cost)]
      .error "TypeError: add_trade got an unexpected keyword argument commission"

/-- `Backtester._execute_trades(date, signals, current_options,
decision_options)` (engine.py lines 208-264). The loop is not inside any
`try/except`, so the errors of `execSignal` abort the whole run. -/
def executeTrades (cpc fpct : ℚ) (date : ℤ) (signals : List Signal)
    (current decision : List OptionRow) (st : Portfolio × List String) :
    Except String (Portfolio × List String) :=
  signals.foldlM (execSignal cpc fpct date current decision) st

/-- An event handler (events.py `EventHandler.handle`): it receives the
date, the portfolio, the day's option chain and the stock slice, and
either returns an updated portfolio or raises. -/
def Handler : Type :=
  ℤ → Portfolio → List OptionRow → List (ℤ × ℚ) → Except String Portfolio

/-- `Backtester._handle_events` (engine.py lines 291-293) composed with
the `try/except` around it in `Backtester.run` (lines 397-400): handlers
run in registration order; the first handler that raises ends the loop
with the exception caught by `run`, keeping the state produced so far. -/
def handleEventsCaught (date : ℤ) (chain : List OptionRow)
    (stock : List (ℤ × ℚ)) : List Handler → Portfolio → Portfolio
  | [], p => p
  | h :: hs, p =>
    match h date p chain stock with
    | .ok p' => handleEventsCaught date chain stock hs p'
    | .error _ => p

/-- The body of the per-ticker loop of `OptionExpirationHandler.handle`
(events.py lines 37-65), given the day's spot close `sp`. -/
def expStep (current_date : ℤ) (sp : ℚ) (acc : Portfolio) (ticker : String) :
    Portfolio :=
  match posEntry acc ticker with
  | none => acc
  | some position =>
    if lookupA position.metadata "type" ≠ some (.str "option") then acc
    else
      match lookupA position.metadata "expiry_date" with
      | some (.date expiry) =>
        if expiry = current_date then
          let strike := getNumD position.metadata "strike" 0
          let opt_type := getStrD position.metadata "option_type" ""
          let intrinsic_value : ℚ :=
            if opt_type = "CALL" then max 0 (sp - strike)
            else if opt_type = "PUT" then max 0 (strike - sp)
            else 0
          let action := if intrinsic_value = 0 then "EXPIRE_OTM" else "EXERCISE_ITM"
          acc.add_trade current_date ticker (-position.quantity)
            intrinsic_value [("action", .str action)]
        else acc
      | _ => acc

/-- `OptionExpirationHandler.handle(current_date, portfolio, market_data,
stock_data)` (events.py lines 28-65): a missing spot row for the day makes
the handler a no-op; otherwise every ticker in a snapshot of the position
keys is checked for expiry. Expiry dates are modelled canonically as
`MetaVal.date` values (the source parses the stored value with
`pd.to_datetime`). The `market_data` argument is unused by the source. -/
def handleExpiration (current_date : ℤ) (p : Portfolio)
    (_market : List OptionRow) (stock_data : List (ℤ × ℚ)) : Portfolio :=
  match lookupA stock_data current_date with
  | none => p
  | some current_stock_price =>
    (p.positions.map (·.1)).foldl (expStep current_date current_stock_price) p

/-- A strategy's `generate_signals` (strategy.py), restricted to the
signal list it returns (custom indicators play no role in the claims). -/
def StrategyFun : Type :=
  ℤ → List OptionRow → List (ℤ × ℚ) → Portfolio → List Signal

/-- The data available for one simulated day: its date, the option chain
for the day, and the stock-history slice handed to handlers/strategy. -/
structure DayData where
  date : ℤ
  chain : List OptionRow
  stockRows : List (ℤ × ℚ)

/-- One iteration of the daily loop of `Backtester.run`
(engine.py lines 395-422): execute the signals deferred from the previous
day (uncaught errors abort the run), run the event handlers under the
`try/except`, compute the spot close as the last row of the stock slice,
mark to market on the chain with `symbol` renamed to `ticker`, then ask
the strategy for the next day's signals. Returns the new pending
`(signals, decision_options)` pair and the portfolio. -/
def runDay (strat : StrategyFun) (handlers : List Handler) (cpc fpct : ℚ)
    (d : DayData) (pending : List Signal × List OptionRow) (p : Portfolio) :
    Except String ((List Signal × List OptionRow) × Portfolio) :=
  match executeTrades cpc fpct d.date pending.1 d.chain pending.2 (p, []) with
  | .error e => .error e
  | .ok (p1, _) =>
    let p2 := handleEventsCaught d.date d.chain d.stockRows handlers p1
    let spot := (d.stockRows.getLast?).map (·.2)
    let p3 := p2.mark_to_market d.date
      (d.chain.map (fun r => (r.symbol, r.close))) spot
    .ok ((strat d.date d.chain d.stockRows p3, d.chain), p3)

/-- The daily loop of `Backtester.run` over a list of days, threading the
pending signals and decision options exactly as `daily_history[-1]` does
(engine.py lines 392-393): the signals executed on a day are those the
strategy returned on the previous day, and nothing else. -/
def runDays (strat : StrategyFun) (handlers : List Handler) (cpc fpct : ℚ) :
    List DayData → (List Signal × List OptionRow) → Portfolio →
    Except String Portfolio
  | [], _, p => .ok p
  | d :: ds, pending, p =>
    match runDay strat handlers cpc fpct d pending p with
    | .error e => .error e
    | .ok (pending', p') => runDays strat handlers cpc fpct ds pending' p'

/-- A trade request as fed to `add_trade`, for stating ledger invariants
over arbitrary trade sequences. -/
structure TradeInput where
  date : ℤ
  ticker : String
  quantity : ℤ
  price : ℚ
  metadata : Metadata
deriving DecidableEq, Repr

/-- Apply a sequence of trades through `Portfolio.add_trade`. -/
def applyTrades (l : List TradeInput) (p : Portfolio) : Portfolio :=
  l.foldl (fun acc tr => acc.add_trade tr.date tr.ticker tr.quantity tr.price tr.metadata) p

/-- The running signed quantity of a ticker over a trade sequence. -/
def netQty (l : List TradeInput) (t : String) : ℤ :=
  ((l.filter (fun tr => tr.ticker == t)).map (·.quantity)).sum

/-! ### Association-list lemmas -/

theorem lookupA_nil {κ α : Type} [BEq κ] (k : κ) :
    lookupA ([] : List (κ × α)) k = none := rfl

section AssocLemmas

variable {κ α : Type} [DecidableEq κ] [BEq κ] [LawfulBEq κ]

theorem lookupA_cons (k' : κ) (v : α) (l : List (κ × α)) (k : κ) :
    lookupA ((k', v) :: l) k = if k' = k then some v else lookupA l k := by
  by_cases h : k' = k <;> simp [lookupA, List.find?_cons, h]

theorem lookupA_append (l1 l2 : List (κ × α)) (k : κ) :
    lookupA (l1 ++ l2) k = (lookupA l1 k).orElse (fun _ => lookupA l2 k) := by
  induction l1 with
  | nil => simp [lookupA_nil]
  | cons a l ih =>
      rw [List.cons_append]
      rcases a with ⟨k', v⟩
      rw [lookupA_cons, lookupA_cons]
      by_cases h : k' = k <;> simp [h, ih]

theorem lookupA_dictSet_self (l : List (κ × α)) (t : κ) (x : α) :
    lookupA (dictSet l t x) t = some x := by
  induction l with
  | nil => simp [dictSet, lookupA_cons]
  | cons a l ih =>
      rcases a with ⟨k', v⟩
      by_cases h : k' = t <;> simp [dictSet, h, lookupA_cons, ih]

theorem lookupA_dictSet_ne (l : List (κ × α)) (t : κ) (x : α) (k : κ)
    (hk : k ≠ t) :
    lookupA (dictSet l t x) k = lookupA l k := by
  induction l with
  | nil => simp [dictSet, lookupA_cons, lookupA_nil, Ne.symm hk]
  | cons a l ih =>
      rcases a with ⟨k', v⟩
      by_cases h : k' = t
      · have hk' : ¬ k' = k := fun e => hk (e.symm.trans h)
        simp [dictSet, h, lookupA_cons, hk', Ne.symm hk]
      · simp [dictSet, h, lookupA_cons, ih]

theorem lookupA_dictRemove_self (l : List (κ × α)) (t : κ) :
    lookupA (dictRemove l t) t = none := by
  induction l with
  | nil => simp [dictRemove, lookupA_nil]
  | cons a l ih =>
      rcases a with ⟨k', v⟩
      by_cases h : k' = t <;> simp [dictRemove, h, lookupA_cons, ih]

theorem lookupA_dictRemove_ne (l : List (κ × α)) (t : κ) (k : κ)
    (hk : k ≠ t) :
    lookupA (dictRemove l t) k = lookupA l k := by
  induction l with
  | nil => simp [dictRemove]
  | cons a l ih =>
      rcases a with ⟨k', v⟩
      by_cases h : k' = t
      · simp [dictRemove, h, lookupA_cons, Ne.symm hk, ih]
      · simp [dictRemove, h, lookupA_cons, ih]

/-- Looking up a key in a value-wise mapped association list. -/
theorem lookupA_map_val {β : Type} (g : κ → α → β) (l : List (κ × α)) (k : κ) :
    lookupA (l.map (fun kv => (kv.1, g kv.1 kv.2))) k =
      (lookupA l k).map (g k) := by
  induction l with
  | nil => simp [lookupA_nil]
  | cons a l ih =>
      rcases a with ⟨k', v⟩
      by_cases h : k' = k <;> simp [h, lookupA_cons, ih]

end AssocLemmas

/-! ### Characterising lemmas for `add_trade` and `mark_to_market` -/

theorem add_trade_cash (p : Portfolio) (d : ℤ) (tk : String) (q : ℤ) (pr : ℚ)
    (m : Metadata) :
    (p.add_trade d tk q pr m).cash = p.cash - (q : ℚ) * pr := rfl

theorem add_trade_trades (p : Portfolio) (d : ℤ) (tk : String) (q : ℤ)
    (pr : ℚ) (m : Metadata) :
    (p.add_trade d tk q pr m).trades =
      p.trades ++ [{ date := d, ticker := tk, quantity := q, price := pr,
                     cost := (q : ℚ) * pr, metadata := m }] := rfl

theorem add_trade_history (p : Portfolio) (d : ℤ) (tk : String) (q : ℤ)
    (pr : ℚ) (m : Metadata) :
    (p.add_trade d tk q pr m).history = p.history := rfl

/-- `add_trade` touches no position other than its own ticker. -/
theorem posEntry_add_trade_ne (p : Portfolio) (d : ℤ) (tk : String) (q : ℤ)
    (pr : ℚ) (m : Metadata) (t : String) (ht : t ≠ tk) :
    posEntry (p.add_trade d tk q pr m) t = posEntry p t := by
  unfold Portfolio.add_trade posEntry
  simp only []
  split
  · rw [lookupA_dictRemove_ne _ _ _ ht, lookupA_dictSet_ne _ _ _ _ ht]
  · rw [lookupA_dictSet_ne _ _ _ _ ht]

/-- The stored position after a trade on an already-held ticker. -/
theorem posEntry_add_trade_upd (p : Portfolio) (d : ℤ) (tk : String) (q : ℤ)
    (pr : ℚ) (m : Metadata) (pos : Position)
    (h : posEntry p tk = some pos) :
    posEntry (p.add_trade d tk q pr m) tk =
      (if pos.quantity + q = 0 then none else some
        { quantity := pos.quantity + q,
          cost_basis :=
            if q > 0 then
              (if pos.quantity + q > 0 then
                (pos.cost_basis * ((pos.quantity : ℤ) : ℚ) + (q : ℚ) * pr) /
                  (((pos.quantity + q : ℤ)) : ℚ)
               else 0)
            else pos.cost_basis,
          market_value := pos.market_value,
          last_price := if q > 0 then pr else pos.last_price,
          last_price_date := if q > 0 then d else pos.last_price_date,
          metadata := dupdate (dupdate pos.metadata m)
            (m.filter (fun kv => allowed_metadata.contains kv.1)),
          mtm_price_source := pos.mtm_price_source }) := by
  unfold Portfolio.add_trade
  unfold posEntry at h ⊢
  simp only [h]
  by_cases hz : pos.quantity + q = 0
  · simp [hz, lookupA_dictRemove_self]
  · by_cases hq : q > 0 <;>
      simp [hz, hq, lookupA_dictSet_self]

/-- The stored position after a first trade on a fresh ticker. -/
theorem posEntry_add_trade_new (p : Portfolio) (d : ℤ) (tk : String) (q : ℤ)
    (pr : ℚ) (m : Metadata) (h : posEntry p tk = none) :
    posEntry (p.add_trade d tk q pr m) tk =
      (if q = 0 then none else some
        { quantity := q,
          cost_basis := if q > 0 then ((q : ℚ) * pr) / ((q : ℤ) : ℚ) else 0,
          market_value := 0,
          last_price := pr,
          last_price_date := d,
          metadata := dupdate m (m.filter (fun kv => allowed_metadata.contains kv.1)),
          mtm_price_source := none }) := by
  unfold Portfolio.add_trade
  unfold posEntry at h ⊢
  simp only [h]
  by_cases hz : q = 0
  · simp [hz, lookupA_dictRemove_self]
  · by_cases hq : q > 0 <;>
      simp [hz, hq, lookupA_dictSet_self]

/-- The positions table after `mark_to_market` is the pointwise image of
the old one under `mtmPosition`. -/
theorem posEntry_mark_to_market (p : Portfolio) (date : ℤ)
    (market : List (String × Option ℚ)) (spot : Option ℚ) (t : String) :
    posEntry (p.mark_to_market date market spot) t =
      (posEntry p t).map
        (fun pos => (mtmPosition p.stale_price_days date market spot t pos).1) := by
  unfold Portfolio.mark_to_market posEntry
  simp only [List.map_map]
  exact lookupA_map_val
    (fun k pos => (mtmPosition p.stale_price_days date market spot k pos).1)
    p.positions t

/-- `netQty` over a cons. -/
theorem netQty_cons (tr : TradeInput) (l : List TradeInput) (t : String) :
    netQty (tr :: l) t =
      (if tr.ticker = t then tr.quantity else 0) + netQty l t := by
  by_cases h : tr.ticker = t <;> simp [netQty, List.filter_cons, h]

/-- `mtmPosition` never changes quantity, cost basis or metadata. -/
theorem mtmPosition_frame (spd date : ℤ) (market : List (String × Option ℚ))
    (spot : Option ℚ) (t : String) (pos : Position) :
    ((mtmPosition spd date market spot t pos).1).quantity = pos.quantity ∧
    ((mtmPosition spd date market spot t pos).1).cost_basis = pos.cost_basis ∧
    ((mtmPosition spd date market spot t pos).1).metadata = pos.metadata := by
  unfold mtmPosition
  rcases h : (lookupA market t).join with _ | price
  · simp only [h]
    by_cases hs : date - pos.last_price_date ≤ spd
    · simp [hs]
    · by_cases ho : lookupA pos.metadata "type" = some (.str "option")
      · simp only [hs, ho, if_false, if_true, eq_self_iff_true]
        rcases spot with _ | sp
        · simp
        · simp only []
          rcases asNum (lookupA pos.metadata "strike") with _ | k <;>
            rcases asStr (lookupA pos.metadata "option_type") with _ | ot <;>
              simp [hs]
      · simp [hs, ho]
  · simp [h]

/-- Invariant carried through a trade sequence: the stored quantity of
every ticker equals a running tally, and an entry exists iff the tally is
non-zero. -/
theorem applyTrades_net (l : List TradeInput) (p : Portfolio)
    (g : String → ℤ)
    (hInv : ∀ t, (posEntry p t).map (fun x => x.quantity) =
      (if g t = 0 then none else some (g t))) :
    ∀ t, (posEntry (applyTrades l p) t).map (fun x => x.quantity) =
      (if g t + netQty l t = 0 then none
       else some (g t + netQty l t)) := by
  induction l generalizing p g with
  | nil =>
      intro t
      simpa [applyTrades, netQty] using hInv t
  | cons tr l ih =>
      intro t
      have step : ∀ u,
          (posEntry (p.add_trade tr.date tr.ticker tr.quantity tr.price
            tr.metadata) u).map (fun x => x.quantity) =
          (if (if u = tr.ticker then g u + tr.quantity else g u) = 0 then none
           else some (if u = tr.ticker then g u + tr.quantity else g u)) := by
        intro u
        by_cases hu : u = tr.ticker
        · rw [hu]
          simp only [if_pos rfl]
          rcases h : posEntry p tr.ticker with _ | pos
          · have hg : g tr.ticker = 0 := by
              have hI := hInv tr.ticker
              rw [h] at hI
              by_contra hg
              rw [if_neg hg] at hI
              exact Option.noConfusion hI
            rw [posEntry_add_trade_new p tr.date tr.ticker tr.quantity
              tr.price tr.metadata h]
            by_cases hq : tr.quantity = 0 <;> simp [hq, hg]
          · have hI := hInv tr.ticker
            rw [h] at hI
            have hg : ¬ g tr.ticker = 0 := by
              intro hg
              rw [if_pos hg] at hI
              exact Option.noConfusion hI
            rw [if_neg hg] at hI
            have hqty : pos.quantity = g tr.ticker := by
              simpa using hI
            rw [posEntry_add_trade_upd p tr.date tr.ticker tr.quantity
              tr.price tr.metadata pos h]
            by_cases hz : pos.quantity + tr.quantity = 0
            · rw [if_pos hz]
              rw [hqty] at hz
              simp [hz]
            · rw [if_neg hz]
              rw [hqty] at hz
              simp [hz, hqty]
        · rw [posEntry_add_trade_ne p tr.date tr.ticker tr.quantity tr.price
            tr.metadata u hu]
          simpa [hu] using hInv u
      have hrec := ih (p.add_trade tr.date tr.ticker tr.quantity tr.price
          tr.metadata)
        (fun u => if u = tr.ticker then g u + tr.quantity else g u) step t
      rw [netQty_cons]
      by_cases ht : t = tr.ticker
      · rw [ht] at hrec ⊢
        simp only [if_pos rfl] at hrec ⊢
        simpa [applyTrades, add_assoc] using hrec
      · rw [show (if tr.ticker = t then tr.quantity else (0 : ℤ)) = 0 from
          if_neg (fun e => ht e.symm)]
        simp only [if_neg ht] at hrec
        rw [show applyTrades (tr :: l) p = applyTrades l
          (p.add_trade tr.date tr.ticker tr.quantity tr.price tr.metadata) from rfl]
        simp only [zero_add]
        exact hrec

/-! ### Claim theorems -/

/-- C4: for every sequence of trades applied through `add_trade` starting
from a fresh portfolio, a ticker has an entry in the positions ledger if
and only if its running signed quantity is non-zero (so a position whose
quantity returns to zero is deleted by that same `add_trade` call). -/
theorem ledger_entry_iff_net_quantity (l : List TradeInput) (c : ℚ) (spd : ℤ)
    (t : String) :
    (posEntry (applyTrades l (Portfolio.init c spd)) t).isSome ↔
      netQty l t ≠ 0 := by
  have h := applyTrades_net l (Portfolio.init c spd) (fun _ => 0)
    (by intro u; simp [posEntry, Portfolio.init, lookupA_nil]) t
  simp only [zero_add] at h
  by_cases hz : netQty l t = 0
  · rw [if_pos hz] at h
    have : posEntry (applyTrades l (Portfolio.init c spd)) t = none :=
      Option.map_eq_none'.mp h
    simp [this, hz]
  · rw [if_neg hz] at h
    rcases hsome : posEntry (applyTrades l (Portfolio.init c spd)) t with _ | pos
    · rw [hsome] at h
      exact absurd h (by simp)
    · simp [hz]

/-- C5: on an already-held position, a trade with `quantity < 0` leaves
the cost basis unchanged (the position survives exactly when the quantity
does not hit zero), while a trade with `quantity > 0` whose resulting
quantity is positive recomputes the cost basis as
`(old_cost_basis*old_qty + quantity*price) / new_qty`. -/
theorem cost_basis_update_rule (p : Portfolio) (d : ℤ) (tk : String) (q : ℤ)
    (pr : ℚ) (m : Metadata) (pos : Position)
    (hpos : posEntry p tk = some pos) :
    (q < 0 →
      (posEntry (p.add_trade d tk q pr m) tk).map (fun x => x.cost_basis) =
        (if pos.quantity + q = 0 then none else some pos.cost_basis)) ∧
    (0 < q → 0 < pos.quantity + q →
      (posEntry (p.add_trade d tk q pr m) tk).map (fun x => x.cost_basis) =
        some ((pos.cost_basis * ((pos.quantity : ℤ) : ℚ) + (q : ℚ) * pr) /
          (((pos.quantity + q : ℤ)) : ℚ))) := by
  rw [posEntry_add_trade_upd p d tk q pr m pos hpos]
  constructor
  · intro hneg
    by_cases hz : pos.quantity + q = 0
    · simp [hz]
    · simp [hz, not_lt.mpr (le_of_lt hneg)]
  · intro hq hnew
    have hz : ¬ pos.quantity + q = 0 := by omega
    simp [hz, hq, hnew]

/-- C5 witness: buy 10 at 5, then sell 4 at 7 — the cost basis stays 5;
and buying 10 more at 11 on a 10-at-5 position gives basis 8. -/
theorem cost_basis_update_rule_witness :
    ((posEntry ((Portfolio.init 100 3).add_trade 0 "A" 10 5 []) "A" =
        some { quantity := 10, cost_basis := 5, market_value := 0,
               last_price := 5, last_price_date := 0, metadata := [],
               mtm_price_source := none }) ∧
     (posEntry (((Portfolio.init 100 3).add_trade 0 "A" 10 5 []).add_trade
         1 "A" (-4) 7 []) "A").map (fun x => x.cost_basis) = some 5) ∧
    (posEntry (((Portfolio.init 100 3).add_trade 0 "A" 10 5 []).add_trade
        1 "A" 10 11 []) "A").map (fun x => x.cost_basis) = some 8 := by
  have h1 : posEntry ((Portfolio.init 100 3).add_trade 0 "A" 10 5 []) "A" =
      some { quantity := 10, cost_basis := 5, market_value := 0,
             last_price := 5, last_price_date := 0, metadata := [],
             mtm_price_source := none } := by
    rw [posEntry_add_trade_new (Portfolio.init 100 3) 0 "A" 10 5 [] rfl]
    norm_num [dupdate]
  refine ⟨⟨h1, ?_⟩, ?_⟩
  · have h := (cost_basis_update_rule _ 1 "A" (-4) 7 [] _ h1).1 (by decide)
    rw [h]
    norm_num
  · have h := (cost_basis_update_rule _ 1 "A" 10 11 [] _ h1).2
      (by decide) (by decide)
    rw [h]
    norm_num

/-- C1 (code evaluation): `Portfolio.add_trade` in portfolio.py takes no
commission/fees parameters and decreases cash by `quantity * price` only.
At the repo's own test scenario (tests/test_engine.py
`test_backtester_commission_and_fees`: quantity 5, fill price 12,
commission 5.0, fees 0.06), cash drops by 60 to 9940, not by the claimed
`total_trade_cost = 65.06` to 9934.94. -/
theorem add_trade_cash_drops_by_raw_cost_only :
    ((Portfolio.init 10000 3).add_trade 0 "TICKA" 5 12
        [("type", .str "option"), ("option_type", .str "CALL"),
         ("due_date", .date 30), ("strike", .num 10), ("action", .str "BUY"),
         ("commission", .num 5), ("fees", .num (6/100))]).cash = 9940 ∧
    (9940 : ℚ) ≠ 10000 - (5 * 12 + 5 * 1 + (5 * 12) * (1/1000)) := by
  constructor
  · rw [add_trade_cash]
    norm_num [Portfolio.init]
  · norm_num

/-- C9 (code evaluation): an unrecognized metadata key (`action`, which is
not in `allowed_metadata`) does end up in the position's persistent
metadata, because `add_trade` stores/merges the full metadata dict
(portfolio.py lines 138 and 141) before the allowed-keys filter runs. -/
theorem unrecognized_metadata_key_persists_on_position :
    (posEntry ((Portfolio.init 10000 3).add_trade 0 "A" 1 10
        [("type", .str "option"), ("action", .str "BUY")]) "A").map
      (fun pos => lookupA pos.metadata "action") = some (some (.str "BUY")) ∧
    allowed_metadata.contains "action" = false := by decide

/-- C10: `mark_to_market` leaves cash, the trade log, and every position's
quantity, cost basis and metadata unchanged (it rewrites only the
valuation fields), and appends exactly one history snapshot, in which
`positions_value = portfolio_value - cash` and `cash` is the portfolio's
cash. -/
theorem mark_to_market_frame (p : Portfolio) (date : ℤ)
    (market : List (String × Option ℚ)) (spot : Option ℚ) :
    (p.mark_to_market date market spot).cash = p.cash ∧
    (p.mark_to_market date market spot).trades = p.trades ∧
    (p.mark_to_market date market spot).positions.map
        (fun kv => (kv.1, kv.2.quantity, kv.2.cost_basis, kv.2.metadata)) =
      p.positions.map
        (fun kv => (kv.1, kv.2.quantity, kv.2.cost_basis, kv.2.metadata)) ∧
    ∃ snap : Snapshot,
      (p.mark_to_market date market spot).history = p.history ++ [snap] ∧
      snap.positions_value = snap.portfolio_value - snap.cash ∧
      snap.cash = p.cash := by
  refine ⟨rfl, rfl, ?_, ⟨_, rfl, rfl, rfl⟩⟩
  unfold Portfolio.mark_to_market
  simp only [List.map_map]
  apply List.map_congr_left
  intro kv _
  obtain ⟨h1, h2, h3⟩ :=
    mtmPosition_frame p.stale_price_days date market spot kv.1 kv.2
  simp [Function.comp_def, h1, h2, h3]

/-- C3: in `mark_to_market`, an open position with no fresh market price
either (a) keeps its carried-forward `last_price` (and its
`last_price_date` is not advanced) when the staleness is at most
`stale_price_days`, or (b), when the staleness exceeds the threshold and
the position is an option with known strike and option type and a spot
price is supplied, is revalued at intrinsic value
(`max 0 (spot - strike)` for CALL, `max 0 (strike - spot)` for PUT) with
`last_price`/`last_price_date` reset to that value and date. -/
theorem mark_to_market_stale_tiers (p : Portfolio) (date : ℤ)
    (market : List (String × Option ℚ)) (spot : Option ℚ) (t : String)
    (pos : Position)
    (hpos : posEntry p t = some pos)
    (hfresh : (lookupA market t).join = none) :
    ((date - pos.last_price_date ≤ p.stale_price_days →
       posEntry (p.mark_to_market date market spot) t =
         some { pos with
                market_value := (pos.quantity : ℚ) * pos.last_price,
                mtm_price_source :=
                  some (.STALE_FWD (date - pos.last_price_date)) })) ∧
    (∀ strike sp optty, p.stale_price_days < date - pos.last_price_date →
       lookupA pos.metadata "type" = some (.str "option") →
       asNum (lookupA pos.metadata "strike") = some strike →
       asStr (lookupA pos.metadata "option_type") = some optty →
       (optty = "CALL" ∨ optty = "PUT") →
       spot = some sp →
       posEntry (p.mark_to_market date market spot) t =
         some { pos with
                last_price := if optty = "PUT" then max 0 (strike - sp)
                              else max 0 (sp - strike),
                last_price_date := date,
                market_value := (pos.quantity : ℚ) *
                  (if optty = "PUT" then max 0 (strike - sp)
                   else max 0 (sp - strike)),
                mtm_price_source :=
                  some (.INTRINSIC_STALE (date - pos.last_price_date)) }) := by
  rw [posEntry_mark_to_market, hpos]
  constructor
  · intro hstale
    simp only [Option.map_some']
    unfold mtmPosition
    rw [hfresh]
    simp [hstale]
  · intro strike sp optty hover htype hstrike hotype hcp hsp
    simp only [Option.map_some']
    unfold mtmPosition
    rw [hfresh]
    subst hsp
    rcases hcp with rfl | rfl <;>
      simp [not_le.mpr hover, htype, hstrike, hotype,
        show (pyUpper "CALL" = "PUT") = False by simp [show ¬ pyUpper "CALL" = "PUT" by decide],
        show (pyUpper "PUT" = "PUT") = True by simp [show pyUpper "PUT" = "PUT" by decide]]

/-- A concrete option position for exercising the valuation tiers. -/
def mtmWitnessPos : Position :=
  { quantity := 2, cost_basis := 5, market_value := 0, last_price := 4,
    last_price_date := 0,
    metadata := [("type", .str "option"), ("strike", .num 10),
                 ("option_type", .str "CALL")],
    mtm_price_source := none }

/-- A concrete portfolio holding `mtmWitnessPos`. -/
def mtmWitnessPortfolio : Portfolio :=
  { cash := 100, positions := [("A", mtmWitnessPos)], history := [],
    trades := [], stale_price_days := 3 }

/-- C3 witness: with `stale_price_days = 3` and `last_price_date = 0`, a
mark on day 2 with no market data reuses the stale price 4, while a mark
on day 5 with spot 17 resets the CALL (strike 10) to intrinsic value 7. -/
theorem mark_to_market_stale_tiers_witness :
    (posEntry mtmWitnessPortfolio "A" = some mtmWitnessPos ∧
     (2 : ℤ) - mtmWitnessPos.last_price_date ≤
       mtmWitnessPortfolio.stale_price_days ∧
     posEntry (mtmWitnessPortfolio.mark_to_market 2 [] none) "A" =
       some { mtmWitnessPos with
              market_value :=
                (mtmWitnessPos.quantity : ℚ) * mtmWitnessPos.last_price,
              mtm_price_source :=
                some (.STALE_FWD (2 - mtmWitnessPos.last_price_date)) }) ∧
    (mtmWitnessPortfolio.stale_price_days <
       (5 : ℤ) - mtmWitnessPos.last_price_date ∧
     posEntry (mtmWitnessPortfolio.mark_to_market 5 [] (some 17)) "A" =
       some { mtmWitnessPos with
              last_price := max 0 ((17 : ℚ) - 10),
              last_price_date := 5,
              market_value := (mtmWitnessPos.quantity : ℚ) * max 0 ((17 : ℚ) - 10),
              mtm_price_source :=
                some (.INTRINSIC_STALE (5 - mtmWitnessPos.last_price_date)) }) := by
  refine ⟨⟨rfl, by decide, ?_⟩, by decide, ?_⟩
  · exact (mark_to_market_stale_tiers mtmWitnessPortfolio 2 [] none "A"
      mtmWitnessPos rfl rfl).1 (by decide)
  · have h := (mark_to_market_stale_tiers mtmWitnessPortfolio 5 [] (some 17)
      "A" mtmWitnessPos rfl rfl).2 10 17 "CALL" (by decide) rfl rfl rfl
      (Or.inl rfl) rfl
    rw [h]
    norm_num
    exact ⟨fun hc => absurd hc (by decide), by decide⟩

/-! ### Structural lemmas for the deferred-execution loop -/

theorem executeTrades_nil (cpc fpct : ℚ) (date : ℤ)
    (cur dec : List OptionRow) (st : Portfolio × List String) :
    executeTrades cpc fpct date [] cur dec st = .ok st := rfl

theorem executeTrades_cons (cpc fpct : ℚ) (date : ℤ) (sig : Signal)
    (sigs : List Signal) (cur dec : List OptionRow)
    (st : Portfolio × List String) :
    executeTrades cpc fpct date (sig :: sigs) cur dec st =
      (match execSignal cpc fpct date cur dec st sig with
       | .ok st' => executeTrades cpc fpct date sigs cur dec st'
       | .error e => .error e) := by
  cases h : execSignal cpc fpct date cur dec st sig <;>
    simp [executeTrades, List.foldlM, h, Bind.bind, Except.bind]

theorem executeTrades_append (cpc fpct : ℚ) (date : ℤ)
    (l1 l2 : List Signal) (cur dec : List OptionRow)
    (st : Portfolio × List String) :
    executeTrades cpc fpct date (l1 ++ l2) cur dec st =
      (match executeTrades cpc fpct date l1 cur dec st with
       | .ok st' => executeTrades cpc fpct date l2 cur dec st'
       | .error e => .error e) := by
  induction l1 generalizing st with
  | nil => simp [executeTrades_nil]
  | cons sig l1 ih =>
      rw [List.cons_append, executeTrades_cons, executeTrades_cons]
      cases h : execSignal cpc fpct date cur dec st sig
      · rfl
      · exact ih _

/-- A single signal step either skips or errors; it never removes trades
and never emits a log message. -/
theorem execSignal_ok_shape (cpc fpct : ℚ) (date : ℤ)
    (cur dec : List OptionRow) (st st' : Portfolio × List String)
    (sig : Signal)
    (h : execSignal cpc fpct date cur dec st sig = .ok st') :
    (∃ ext, st'.1.trades = st.1.trades ++ ext) ∧ st'.2 = st.2 := by
  unfold execSignal at h
  rcases hcur : cur.find? (fun r => r.symbol == sig.ticker) with _ | row
  · rw [hcur] at h
    cases h
    exact ⟨⟨[], by simp⟩, rfl⟩
  · rw [hcur] at h
    rcases hdec : dec.find? (fun r => r.symbol == sig.ticker) with _ | drow
    · rw [hdec] at h
      exact Except.noConfusion h
    · rw [hdec] at h
      exact Except.noConfusion h

/-- The execution loop only appends trades and never emits log messages. -/
theorem executeTrades_ok_shape (cpc fpct : ℚ) (date : ℤ)
    (sigs : List Signal) (cur dec : List OptionRow)
    (st q : Portfolio × List String)
    (h : executeTrades cpc fpct date sigs cur dec st = .ok q) :
    (∃ ext, q.1.trades = st.1.trades ++ ext) ∧ q.2 = st.2 := by
  induction sigs generalizing st with
  | nil =>
      rw [executeTrades_nil] at h
      cases h
      exact ⟨⟨[], by simp⟩, rfl⟩
  | cons sig sigs ih =>
      rw [executeTrades_cons] at h
      rcases hs : execSignal cpc fpct date cur dec st sig with _ | st'
      · rw [hs] at h
        exact Except.noConfusion h
      · rw [hs] at h
        obtain ⟨⟨ext1, h1⟩, hl1⟩ := execSignal_ok_shape _ _ _ _ _ _ _ _ hs
        obtain ⟨⟨ext2, h2⟩, hl2⟩ := ih _ h
        exact ⟨⟨ext1 ++ ext2, by rw [h2, h1, List.append_assoc]⟩,
               hl2.trans hl1⟩

/-- A concrete option-chain row for exercising the execution loop. -/
def rowX : OptionRow :=
  { symbol := "X", typ := some "CALL", due_date := some 30, strike := some 10,
    close := some 11, high := 12, low := 10 }

/-- C2 (code evaluation): a deferred buy signal whose ticker has a
matching row in both the decision day's and the execution day's option
chain is *not* executed at the day's high price: the call at
engine.py line 264 passes `commission=`/`fees=` keyword arguments that
the `add_trade` signature in portfolio.py rejects, so an uncaught
`TypeError` (outside the `try/except` in `run`, which guards only the
event handlers) aborts the run before any trade is recorded — while the
repo's own test `test_backtester_run_pessimistic_execution` requires
exactly the claimed execution at the day's high. -/
theorem pessimistic_fill_trade_never_recorded :
    executeTrades 1 0 7 [⟨"X", 5⟩] [rowX] [rowX]
        (Portfolio.init 100 3, []) =
      .error "TypeError: add_trade got an unexpected keyword argument commission" ∧
    executeTrades 0 0 7 [⟨"X", 5⟩] [rowX] [] (Portfolio.init 100 3, []) =
      .error "IndexError: single positional indexer is out-of-bounds" :=
  ⟨rfl, rfl⟩

/-- An event handler that always raises. -/
def boomHandler : Handler := fun _ _ _ _ => .error "boom"

/-- An event handler that records one observable trade. -/
def markHandler : Handler := fun d p _ _ => .ok (p.add_trade d "MARK" 1 0 [])

/-- C7 counterexample: the `try/except` in `Backtester.run` wraps the
whole handler loop of `_handle_events`, so an error in the first handler
prevents the second handler from being invoked at all (no trade is
recorded), whereas the second handler alone does record its trade. -/
theorem handler_error_blocks_later_handlers :
    (handleEventsCaught 0 [] [] [boomHandler, markHandler]
      (Portfolio.init 100 3)).trades.length = 0 ∧
    (handleEventsCaught 0 [] [] [markHandler]
      (Portfolio.init 100 3)).trades.length = 1 := ⟨rfl, rfl⟩

/-- A handler error ends the handler loop with the state built so far. -/
theorem handleEventsCaught_error_head (date : ℤ) (chain : List OptionRow)
    (stock : List (ℤ × ℚ)) (h : Handler) (hs : List Handler) (p : Portfolio)
    (e : String) (herr : h date p chain stock = .error e) :
    handleEventsCaught date chain stock (h :: hs) p = p := by
  unfold handleEventsCaught
  rw [herr]

/-- `mark_to_market` always appends one snapshot. -/
theorem mark_to_market_appends_snapshot (p : Portfolio) (date : ℤ)
    (market : List (String × Option ℚ)) (spot : Option ℚ) :
    ∃ snap, (p.mark_to_market date market spot).history =
      p.history ++ [snap] := ⟨_, rfl⟩

/-- `runDay` once the deferred-execution stage has succeeded. -/
theorem runDay_ok (strat : StrategyFun) (handlers : List Handler)
    (cpc fpct : ℚ) (d : DayData) (pending : List Signal × List OptionRow)
    (p p1 : Portfolio) (logs : List String)
    (hexec : executeTrades cpc fpct d.date pending.1 d.chain pending.2
      (p, []) = .ok (p1, logs)) :
    runDay strat handlers cpc fpct d pending p =
      .ok ((strat d.date d.chain d.stockRows
             ((handleEventsCaught d.date d.chain d.stockRows handlers
                p1).mark_to_market d.date
               (d.chain.map (fun r => (r.symbol, r.close)))
               ((d.stockRows.getLast?).map (·.2))), d.chain),
           (handleEventsCaught d.date d.chain d.stockRows handlers
             p1).mark_to_market d.date
             (d.chain.map (fun r => (r.symbol, r.close)))
             ((d.stockRows.getLast?).map (·.2))) := by
  unfold runDay
  rw [hexec]

/-- C7 (amended): an error raised by an event handler is caught by the
orchestrator, so the run is not aborted and the day's remaining stages
still execute — the portfolio is marked to market (appending the day's
snapshot) and the strategy is consulted; however, the error ends the
handler loop, so the remaining handlers of that day are skipped. -/
theorem handler_error_caught_day_continues (strat : StrategyFun)
    (h : Handler) (hs : List Handler) (cpc fpct : ℚ) (d : DayData)
    (pending : List Signal × List OptionRow) (p p1 : Portfolio)
    (logs : List String) (e : String)
    (hexec : executeTrades cpc fpct d.date pending.1 d.chain pending.2
      (p, []) = .ok (p1, logs))
    (herr : h d.date p1 d.chain d.stockRows = .error e) :
    runDay strat (h :: hs) cpc fpct d pending p =
      .ok ((strat d.date d.chain d.stockRows
             (p1.mark_to_market d.date
               (d.chain.map (fun r => (r.symbol, r.close)))
               ((d.stockRows.getLast?).map (·.2))), d.chain),
           p1.mark_to_market d.date
             (d.chain.map (fun r => (r.symbol, r.close)))
             ((d.stockRows.getLast?).map (·.2))) ∧
    ∃ snap, (p1.mark_to_market d.date
        (d.chain.map (fun r => (r.symbol, r.close)))
        ((d.stockRows.getLast?).map (·.2))).history =
      p1.history ++ [snap] := by
  refine ⟨?_, mark_to_market_appends_snapshot _ _ _ _⟩
  rw [runDay_ok strat (h :: hs) cpc fpct d pending p p1 logs hexec,
      handleEventsCaught_error_head d.date d.chain d.stockRows h hs p1 e herr]

/-- C7 witness: with a single always-raising handler, the day still
completes — `runDay` returns `.ok` and the mark-to-market snapshot is
appended. -/
theorem handler_error_caught_day_continues_witness :
    (executeTrades 0 0 (0 : ℤ) ([] : List Signal) [] []
        (Portfolio.init 100 3, ([] : List String)) =
      .ok (Portfolio.init 100 3, [])) ∧
    (boomHandler 0 (Portfolio.init 100 3) [] [] = .error "boom") ∧
    (runDay (fun _ _ _ _ => []) [boomHandler] 0 0 ⟨0, [], []⟩ ([], [])
        (Portfolio.init 100 3) =
      .ok (([], []), (Portfolio.init 100 3).mark_to_market 0 [] none)) ∧
    ∃ snap, ((Portfolio.init 100 3).mark_to_market 0 [] none).history =
      (Portfolio.init 100 3).history ++ [snap] := by
  have h := handler_error_caught_day_continues (fun _ _ _ _ => [])
    boomHandler [] 0 0 ⟨0, [], []⟩ ([], []) (Portfolio.init 100 3)
    (Portfolio.init 100 3) [] "boom" rfl rfl
  exact ⟨rfl, rfl, h.1, h.2⟩

/-- C8 counterexample: executing a deferred signal with no matching row
in the execution day's chain returns the portfolio bit-for-bit unchanged
and emits an empty list of log messages — there is no `FAILED_NO_DATA`
entry (nor any other record of the signal): `_execute_trades` silently
`continue`s and `Backtester.trade_log` is never populated. -/
theorem failed_signal_silently_skipped :
    executeTrades 0 0 5 [⟨"X", 2⟩] [] [] (Portfolio.init 100 3, []) =
      .ok (Portfolio.init 100 3, ([] : List String)) := rfl

/-- One day of the loop, unfolded on the shape of `runDay`'s result. -/
theorem runDays_cons (strat : StrategyFun) (handlers : List Handler)
    (cpc fpct : ℚ) (d : DayData) (ds : List DayData)
    (pending : List Signal × List OptionRow) (p : Portfolio) :
    runDays strat handlers cpc fpct (d :: ds) pending p =
      (match runDay strat handlers cpc fpct d pending p with
       | .error e => .error e
       | .ok pr => runDays strat handlers cpc fpct ds pr.1 pr.2) := by
  cases h : runDay strat handlers cpc fpct d pending p <;> simp [runDays, h]

/-- C8 (amended): a deferred signal whose ticker has no row in the
execution day's option chain has no effect whatsoever: the remainder of
the run (including every later day) is identical to the run in which the
signal never existed — zero ledger mutation, no log entry, and no retry
on any later day (each day executes only the signals the strategy
returned on the immediately preceding day). -/
theorem failed_signal_no_effect_no_retry (strat : StrategyFun)
    (handlers : List Handler) (cpc fpct : ℚ) (d : DayData)
    (ds : List DayData) (pre post : List Signal) (sig : Signal)
    (dec : List OptionRow) (p : Portfolio)
    (hmiss : d.chain.find? (fun r => r.symbol == sig.ticker) = none) :
    runDays strat handlers cpc fpct (d :: ds) (pre ++ sig :: post, dec) p =
      runDays strat handlers cpc fpct (d :: ds) (pre ++ post, dec) p := by
  have hskip : ∀ st, execSignal cpc fpct d.date d.chain dec st sig = .ok st := by
    intro st
    unfold execSignal
    rw [hmiss]
  have hexecEq : executeTrades cpc fpct d.date (pre ++ sig :: post) d.chain
      dec (p, []) = executeTrades cpc fpct d.date (pre ++ post) d.chain dec
      (p, []) := by
    rw [executeTrades_append, executeTrades_append]
    cases h1 : executeTrades cpc fpct d.date pre d.chain dec (p, []) with
    | error e => rfl
    | ok st1 =>
        show executeTrades cpc fpct d.date (sig :: post) d.chain dec st1 =
          executeTrades cpc fpct d.date post d.chain dec st1
        rw [executeTrades_cons, hskip]
  have hday : runDay strat handlers cpc fpct d (pre ++ sig :: post, dec) p =
      runDay strat handlers cpc fpct d (pre ++ post, dec) p := by
    unfold runDay
    rw [hexecEq]
  rw [runDays_cons, runDays_cons, hday]

/-- C8 witness: a single-day run whose only deferred signal has no row in
the day's (empty) chain equals the run with no signals at all. -/
theorem failed_signal_no_effect_no_retry_witness :
    (([] : List OptionRow).find? (fun r => r.symbol == "X") = none) ∧
    runDays (fun _ _ _ _ => []) [] 0 0 [⟨5, [], []⟩] ([⟨"X", 1⟩], [])
        (Portfolio.init 100 3) =
      runDays (fun _ _ _ _ => []) [] 0 0 [⟨5, [], []⟩] ([], [])
        (Portfolio.init 100 3) :=
  ⟨rfl, failed_signal_no_effect_no_retry (fun _ _ _ _ => []) [] 0 0
    ⟨5, [], []⟩ [] [] [] ⟨"X", 1⟩ [] (Portfolio.init 100 3) rfl⟩

/-! ### Lemmas for the option-expiration handler -/

theorem mem_keys_of_lookupA {κ α : Type} [DecidableEq κ] [BEq κ]
    [LawfulBEq κ] (l : List (κ × α)) (k : κ) (v : α)
    (h : lookupA l k = some v) : k ∈ l.map (·.1) := by
  induction l with
  | nil => simp [lookupA_nil] at h
  | cons a l ih =>
      rw [lookupA_cons] at h
      by_cases ha : a.1 = k
      · simp [ha]
      · rw [if_neg ha] at h
        simp [ih h]

/-- A ticker with no current entry is skipped by the expiration step. -/
theorem expStep_none (d : ℤ) (sp : ℚ) (acc : Portfolio) (u : String)
    (h : posEntry acc u = none) : expStep d sp acc u = acc := by
  unfold expStep
  rw [h]

/-- The expiration step for one ticker never touches another ticker's
position. -/
theorem posEntry_expStep_ne (d : ℤ) (sp : ℚ) (acc : Portfolio)
    (u t : String) (h : t ≠ u) :
    posEntry (expStep d sp acc u) t = posEntry acc t := by
  cases hp : posEntry acc u with
  | none => rw [expStep_none d sp acc u hp]
  | some position =>
      simp only [expStep, hp]
      by_cases h1 : lookupA position.metadata "type" ≠ some (.str "option")
      · rw [if_pos h1]
      · rw [if_neg h1]
        rcases he : lookupA position.metadata "expiry_date" with _ | mv
        · rfl
        · rcases mv with s | q | ex | _
          · rfl
          · rfl
          · dsimp only
            by_cases h2 : ex = d
            · rw [if_pos h2]
              exact posEntry_add_trade_ne _ _ _ _ _ _ t h
            · rw [if_neg h2]
          · rfl

/-- The expiration step only ever appends trades. -/
theorem expStep_trades (d : ℤ) (sp : ℚ) (acc : Portfolio) (u : String) :
    ∃ ext, (expStep d sp acc u).trades = acc.trades ++ ext := by
  cases hp : posEntry acc u with
  | none => exact ⟨[], by rw [expStep_none d sp acc u hp]; simp⟩
  | some position =>
      simp only [expStep, hp]
      by_cases h1 : lookupA position.metadata "type" ≠ some (.str "option")
      · rw [if_pos h1]
        exact ⟨[], by simp⟩
      · rw [if_neg h1]
        rcases he : lookupA position.metadata "expiry_date" with _ | mv
        · exact ⟨[], by simp⟩
        · rcases mv with s | q | ex | _
          · exact ⟨[], by simp⟩
          · exact ⟨[], by simp⟩
          · dsimp only
            by_cases h2 : ex = d
            · rw [if_pos h2]
              exact ⟨_, add_trade_trades _ _ _ _ _ _⟩
            · rw [if_neg h2]
              exact ⟨[], by simp⟩
          · exact ⟨[], by simp⟩

/-- The expiration step fires on an option position expiring today,
closing it with a trade of the negated quantity at the intrinsic value
computed from the day's spot close. -/
theorem expStep_fires (d : ℤ) (sp : ℚ) (acc : Portfolio) (t : String)
    (pos : Position) (k : ℚ) (ot : String)
    (hpos : posEntry acc t = some pos)
    (htype : lookupA pos.metadata "type" = some (.str "option"))
    (hexp : lookupA pos.metadata "expiry_date" = some (.date d))
    (hk : asNum (lookupA pos.metadata "strike") = some k)
    (hot : asStr (lookupA pos.metadata "option_type") = some ot) :
    expStep d sp acc t = acc.add_trade d t (-pos.quantity)
      (if ot = "CALL" then max 0 (sp - k)
       else if ot = "PUT" then max 0 (k - sp) else 0)
      [("action", .str
        (if (if ot = "CALL" then max 0 (sp - k)
             else if ot = "PUT" then max 0 (k - sp) else 0) = 0
         then "EXPIRE_OTM" else "EXERCISE_ITM"))] := by
  simp only [expStep, hpos]
  rw [if_neg (fun hne => hne htype)]
  simp only [hexp, if_pos rfl, getNumD, getStrD, hk, hot, if_true]

/-- Once a ticker is gone from the ledger, the rest of the expiration
pass never recreates it. -/
theorem expFold_none (d : ℤ) (sp : ℚ) (ks : List String) (t : String) :
    ∀ acc : Portfolio, posEntry acc t = none →
      posEntry (ks.foldl (expStep d sp) acc) t = none := by
  induction ks with
  | nil => intro acc h; simpa using h
  | cons u ks ih =>
      intro acc h
      rw [List.foldl_cons]
      by_cases hu : u = t
      · rw [expStep_none d sp acc u (by rw [hu]; exact h)]
        exact ih acc h
      · exact ih _ (by
          rw [posEntry_expStep_ne d sp acc u t (fun e => hu e.symm)]
          exact h)

/-- The expiration pass only ever appends trades. -/
theorem expFold_trades_mono (d : ℤ) (sp : ℚ) (ks : List String) :
    ∀ acc : Portfolio, ∃ ext,
      (ks.foldl (expStep d sp) acc).trades = acc.trades ++ ext := by
  induction ks with
  | nil => intro acc; exact ⟨[], by simp⟩
  | cons u ks ih =>
      intro acc
      rw [List.foldl_cons]
      obtain ⟨ext0, h0⟩ := expStep_trades d sp acc u
      obtain ⟨ext1, h1⟩ := ih (expStep d sp acc u)
      exact ⟨ext0 ++ ext1, by rw [h1, h0, List.append_assoc]⟩

/-- Walking the snapshot of ledger keys, the expiration pass closes an
expiring option position and records the settlement trade. -/
theorem expFold_closes (d : ℤ) (sp : ℚ) (t : String) (pos : Position)
    (k : ℚ) (ot : String)
    (htype : lookupA pos.metadata "type" = some (.str "option"))
    (hexp : lookupA pos.metadata "expiry_date" = some (.date d))
    (hk : asNum (lookupA pos.metadata "strike") = some k)
    (hot : asStr (lookupA pos.metadata "option_type") = some ot) :
    ∀ (ks : List String) (acc : Portfolio), t ∈ ks →
      posEntry acc t = some pos →
      posEntry (ks.foldl (expStep d sp) acc) t = none ∧
      ∃ l1 l2, (ks.foldl (expStep d sp) acc).trades =
        l1 ++ { date := d, ticker := t, quantity := -pos.quantity,
                price := (if ot = "CALL" then max 0 (sp - k)
                          else if ot = "PUT" then max 0 (k - sp) else 0),
                cost := ((-pos.quantity : ℤ) : ℚ) *
                  (if ot = "CALL" then max 0 (sp - k)
                   else if ot = "PUT" then max 0 (k - sp) else 0),
                metadata := [("action", .str
                  (if (if ot = "CALL" then max 0 (sp - k)
                       else if ot = "PUT" then max 0 (k - sp) else 0) = 0
                   then "EXPIRE_OTM" else "EXERCISE_ITM"))] } :: l2 ∧
        acc.trades.length ≤ l1.length := by
  intro ks
  induction ks with
  | nil => intro acc hmem; exact absurd hmem (List.not_mem_nil t)
  | cons u ks ih =>
      intro acc hmem hpos
      rw [List.foldl_cons]
      by_cases hu : u = t
      · have hstep : expStep d sp acc u = acc.add_trade d t (-pos.quantity)
            (if ot = "CALL" then max 0 (sp - k)
             else if ot = "PUT" then max 0 (k - sp) else 0)
            [("action", .str
              (if (if ot = "CALL" then max 0 (sp - k)
                   else if ot = "PUT" then max 0 (k - sp) else 0) = 0
               then "EXPIRE_OTM" else "EXERCISE_ITM"))] := by
          rw [hu]
          exact expStep_fires d sp acc t pos k ot hpos htype hexp hk hot
        rw [hstep]
        have hnone : posEntry (acc.add_trade d t (-pos.quantity)
            (if ot = "CALL" then max 0 (sp - k)
             else if ot = "PUT" then max 0 (k - sp) else 0)
            [("action", .str
              (if (if ot = "CALL" then max 0 (sp - k)
                   else if ot = "PUT" then max 0 (k - sp) else 0) = 0
               then "EXPIRE_OTM" else "EXERCISE_ITM"))]) t = none := by
          rw [posEntry_add_trade_upd acc d t (-pos.quantity) _ _ pos hpos]
          simp
        refine ⟨expFold_none d sp ks t _ hnone, ?_⟩
        obtain ⟨ext, hext⟩ := expFold_trades_mono d sp ks _
        refine ⟨acc.trades, ext, ?_, le_refl _⟩
        rw [hext, add_trade_trades, List.append_assoc]
        rfl
      · have hpres : posEntry (expStep d sp acc u) t = posEntry acc t :=
          posEntry_expStep_ne d sp acc u t (fun e => hu e.symm)
        have hmem' : t ∈ ks := by
          rcases List.mem_cons.mp hmem with he | hm
          · exact absurd he.symm hu
          · exact hm
        obtain ⟨hnone, l1, l2, hl, hlen⟩ :=
          ih (expStep d sp acc u) hmem' (by rw [hpres]; exact hpos)
        refine ⟨hnone, l1, l2, hl, ?_⟩
        obtain ⟨ext0, hext0⟩ := expStep_trades d sp acc u
        calc acc.trades.length ≤ (expStep d sp acc u).trades.length := by
              rw [hext0]; simp
          _ ≤ l1.length := hlen

/-- C6: an open option position with known strike and option type whose
`expiry_date` equals the simulated date is fully closed by the expiration
handler that day — a trade of the negated quantity is recorded at the
option's intrinsic value computed from the day's spot close, tagged
`EXPIRE_OTM` when the intrinsic value is 0 and `EXERCISE_ITM` when it is
positive — and the position disappears from the ledger. -/
theorem option_expiration_settlement (d : ℤ) (p : Portfolio)
    (market : List OptionRow) (stock : List (ℤ × ℚ)) (sp : ℚ) (t : String)
    (pos : Position) (k : ℚ) (ot : String)
    (hsp : lookupA stock d = some sp)
    (hpos : posEntry p t = some pos)
    (htype : lookupA pos.metadata "type" = some (.str "option"))
    (hexp : lookupA pos.metadata "expiry_date" = some (.date d))
    (hk : asNum (lookupA pos.metadata "strike") = some k)
    (hot : asStr (lookupA pos.metadata "option_type") = some ot)
    (hcp : ot = "CALL" ∨ ot = "PUT") :
    posEntry (handleExpiration d p market stock) t = none ∧
    ∃ l1 l2, (handleExpiration d p market stock).trades =
      l1 ++ { date := d, ticker := t, quantity := -pos.quantity,
              price := (if ot = "CALL" then max 0 (sp - k)
                        else max 0 (k - sp)),
              cost := ((-pos.quantity : ℤ) : ℚ) *
                (if ot = "CALL" then max 0 (sp - k) else max 0 (k - sp)),
              metadata := [("action", .str
                (if (if ot = "CALL" then max 0 (sp - k)
                     else max 0 (k - sp)) = 0
                 then "EXPIRE_OTM" else "EXERCISE_ITM"))] } :: l2 ∧
      p.trades.length ≤ l1.length := by
  have hintr : (if ot = "CALL" then max 0 (sp - k)
      else if ot = "PUT" then max 0 (k - sp) else 0) =
      (if ot = "CALL" then max 0 (sp - k) else max 0 (k - sp)) := by
    rcases hcp with rfl | rfl <;> simp
  have hmem : t ∈ p.positions.map (·.1) :=
    mem_keys_of_lookupA p.positions t pos hpos
  have h := expFold_closes d sp t pos k ot htype hexp hk hot
    (p.positions.map (·.1)) p hmem hpos
  rw [hintr] at h
  unfold handleExpiration
  rw [hsp]
  exact h

/-- A concrete CALL position expiring on day 9. -/
def expWitnessPos : Position :=
  { quantity := 2, cost_basis := 5, market_value := 0, last_price := 4,
    last_price_date := 0,
    metadata := [("type", .str "option"), ("strike", .num 10),
                 ("option_type", .str "CALL"), ("expiry_date", .date 9)],
    mtm_price_source := none }

/-- A concrete portfolio holding `expWitnessPos`. -/
def expWitnessPortfolio : Portfolio :=
  { cash := 100, positions := [("A", expWitnessPos)], history := [],
    trades := [], stale_price_days := 3 }

/-- C6 witness: on day 9 with spot close 17, the CALL with strike 10 is
closed (quantity -2) at intrinsic value 7 and tagged `EXERCISE_ITM`. -/
theorem option_expiration_settlement_witness :
    (lookupA [((9 : ℤ), (17 : ℚ))] (9 : ℤ) = some 17 ∧
     posEntry expWitnessPortfolio "A" = some expWitnessPos) ∧
    posEntry (handleExpiration 9 expWitnessPortfolio [] [(9, 17)]) "A" =
      none ∧
    ∃ l1 l2, (handleExpiration 9 expWitnessPortfolio [] [(9, 17)]).trades =
      l1 ++ { date := 9, ticker := "A", quantity := -expWitnessPos.quantity,
              price := (if "CALL" = "CALL" then max 0 ((17 : ℚ) - 10)
                        else max 0 ((10 : ℚ) - 17)),
              cost := ((-expWitnessPos.quantity : ℤ) : ℚ) *
                (if "CALL" = "CALL" then max 0 ((17 : ℚ) - 10)
                 else max 0 ((10 : ℚ) - 17)),
              metadata := [("action", .str
                (if (if "CALL" = "CALL" then max 0 ((17 : ℚ) - 10)
                     else max 0 ((10 : ℚ) - 17)) = 0
                 then "EXPIRE_OTM" else "EXERCISE_ITM"))] } :: l2 ∧
      expWitnessPortfolio.trades.length ≤ l1.length := by
  have h := option_expiration_settlement 9 expWitnessPortfolio [] [(9, 17)]
    17 "A" expWitnessPos 10 "CALL" rfl rfl rfl rfl rfl rfl (Or.inl rfl)
  exact ⟨⟨rfl, rfl⟩, h.1, h.2⟩
